import Mathlib

/-!
Verification development for the per-session allocation state machine of
`bot.py`: the text parser used by `handle_text`, the session mapping
(`user_data`), the operations `begin_strategy` (start), `handle_text`
(add entry), `undo`, `cancel` (reset), `get_summary` (query), and the
JSON persistence pair `save_user_data` / `load_user_data`.

The embedding works over ASCII text: Python's `\d`, `\s`, `str.strip`,
`str.capitalize` and `re.I` also accept some non-ASCII characters, but
every input appearing in the properties below is ASCII, where the
behaviours coincide.
-/

namespace Bot

/-! ## Character classes (ASCII fragments of Python `\d`, `\s`) -/

/-- Python `\d` on ASCII: the characters `'0'..'9'`. -/
def isDigitChar (c : Char) : Bool := '0' ≤ c && c ≤ '9'

/-- Python `\s` on ASCII: space, tab, newline, carriage return,
vertical tab, form feed. -/
def isSpaceChar (c : Char) : Bool :=
  c = ' ' || c = '\t' || c = '\n' || c = '\x0d' || c = '\x0b' || c = '\x0c'

/-- Python `str.strip()`: drop leading and trailing whitespace. -/
def pyStrip (cs : List Char) : List Char :=
  ((cs.dropWhile isSpaceChar).reverse.dropWhile isSpaceChar).reverse

/-- Python `str.capitalize()` (ASCII): first character uppercased, the
rest lowercased. Source: `match.group(2).strip().capitalize()`. -/
def capitalizePy : List Char → List Char
  | [] => []
  | c :: rest => c.toUpper :: rest.map Char.toLower

/-- Numeric value of a digit string, as computed by Python `int` on a
string of decimal digits (`int(match.group(1))`). -/
def digitsVal (ds : List Char) : Nat :=
  ds.foldl (fun a c => 10 * a + (c.toNat - 48)) 0

/-! ## The regex `(\d+)\s*%?\s*(?:for|on|to)?\s*(.+)` with `re.I`

`re.search` scans start positions left to right; at each position the
pattern is tried with ordinary greedy backtracking.  Each combinator
below takes a continuation `k` and tries the alternatives of one piece
of the pattern in the engine's order, greedier first. -/

/-- Pattern piece `\s*` before `k`: the whitespace run is consumed greedily, longest
first, backtracking to shorter prefixes (the argument is the number of
whitespace characters still allowed to be consumed). -/
def tryWsFrom (k : List Char → Option α) (cs : List Char) : Nat → Option α
  | 0 => k cs
  | n + 1 => k (cs.drop (n + 1)) <|> tryWsFrom k cs n

/-- Pattern piece `\s*` before `k`: greedy with backtracking. -/
def tryWs (k : List Char → Option α) (cs : List Char) : Option α :=
  tryWsFrom k cs (cs.takeWhile isSpaceChar).length

/-- Pattern piece `%?` before `k`: try consuming the `%` first, then the empty
alternative. -/
def tryPercent (k : List Char → Option α) : List Char → Option α
  | [] => k []
  | c :: rest => if c = '%' then k rest <|> k (c :: rest) else k (c :: rest)

/-- Consume the literal word `w` (given lowercased) case-insensitively
(`re.I`), returning the remaining input. -/
def stripCI : List Char → List Char → Option (List Char)
  | [], cs => some cs
  | _ :: _, [] => none
  | w :: ws, c :: cs => if c.toLower = w then stripCI ws cs else none

/-- Pattern piece `(?:for|on|to)?` before `k`: alternatives in the pattern's order,
then the empty alternative. -/
def tryConn (k : List Char → Option α) (cs : List Char) : Option α :=
  ((stripCI ['f', 'o', 'r'] cs).bind k) <|>
  ((stripCI ['o', 'n'] cs).bind k) <|>
  ((stripCI ['t', 'o'] cs).bind k) <|>
  k cs

/-- Pattern piece `(.+)` as the final pattern element: the greedy match is the longest
newline-free prefix, and it must be nonempty. -/
def matchDotPlus (cs : List Char) : Option (List Char) :=
  let g := cs.takeWhile (fun c => !(c = '\n'))
  if g.isEmpty then none else some g

/-- Pattern piece `(\d+)` before `k`: the digit run is consumed greedily, longest
first, backtracking down to a single digit (the argument is the number
of digits still allowed to be consumed; at `0` the piece fails because
`+` requires at least one digit). -/
def tryDigitsFrom (k : Nat → List Char → Option α) (cs : List Char) :
    Nat → Option α
  | 0 => none
  | j + 1 => k (digitsVal (cs.take (j + 1))) (cs.drop (j + 1)) <|> tryDigitsFrom k cs j

/-- Pattern piece `(\d+)` before `k`: greedy with backtracking. -/
def tryDigits (k : Nat → List Char → Option α) (cs : List Char) : Option α :=
  tryDigitsFrom k cs (cs.takeWhile isDigitChar).length

/-- Try the whole pattern anchored at the start of `cs`, returning
(group 1 as an integer, group 2). -/
def matchAt (cs : List Char) : Option (Nat × List Char) :=
  tryDigits (fun n rest =>
    tryWs (tryPercent (tryWs (tryConn (tryWs (fun cs2 =>
      (matchDotPlus cs2).map (fun g2 => (n, g2))))))) rest) cs

/-- Python `re.search`: leftmost successful start position wins. -/
def reSearch : List Char → Option (Nat × List Char)
  | [] => none
  | c :: rest => matchAt (c :: rest) <|> reSearch rest

/-- The parsing pipeline of `handle_text` lines 134–146: strip the
message text, search for the pattern, and on a match return
`int(group(1))` together with `group(2).strip().capitalize()`. -/
def parseLine (text : String) : Option (Nat × String) :=
  (reSearch (pyStrip text.data)).map
    (fun r => (r.1, String.mk (capitalizePy (pyStrip r.2))))

/-! ## Data model

`user_data` maps a chat id (a Python `int`) to
`{"categories": [(category, pct), ...], "total": total}`. -/

/-- One session's plan: the value stored at `user_data[chat_id]`. -/
structure Plan where
  categories : List (String × Int)
  total : Int
  deriving DecidableEq, Repr

/-- The in-memory `user_data` dict, as an association list in insertion
order (Python dicts preserve insertion order and have unique keys). -/
abbrev SessionMap := List (Int × Plan)

/-- Dict lookup `user_data[chat_id]` / `user_data.get(chat_id)`. -/
def lookupSess : SessionMap → Int → Option Plan
  | [], _ => none
  | (k', p) :: rest, k => if k' = k then some p else lookupSess rest k

/-- Dict assignment `user_data[chat_id] = p`: replace in place if the
key is present, else append. -/
def setSess : SessionMap → Int → Plan → SessionMap
  | [], k, p => [(k, p)]
  | (k', p') :: rest, k, p =>
    if k' = k then (k, p) :: rest else (k', p') :: setSess rest k p

/-- Dict removal `user_data.pop(chat_id, None)`. -/
def popSess : SessionMap → Int → SessionMap
  | [], _ => []
  | (k', p) :: rest, k =>
    if k' = k then popSess rest k else (k', p) :: popSess rest k

/-- Structured view of the rendered summary `get_summary` (lines 56–69):
either "no categories yet" or the list of lines with total and
remaining. -/
inductive SummaryOut
  | empty
  | table (lines : List (String × Int)) (total : Int) (remaining : Int)
  deriving DecidableEq, Repr

/-- Source `get_summary(chat_id)`: empty when the key is absent or the
category list is empty; otherwise the categories, the total, and
`100 - total`. -/
def getSummary (m : SessionMap) (k : Int) : SummaryOut :=
  match lookupSess m k with
  | none => .empty
  | some p =>
    if p.categories = [] then .empty
    else .table p.categories p.total (100 - p.total)

/-- The outcome rendered back to the user by each handler. -/
inductive Outcome
  | started
  | parseError
  | rangeError
  | capacityError (remaining : Int)
  | added (category : String) (pct : Nat) (isComplete : Bool)
  | removed (category : String) (pct : Int)
  | nothingToUndo
  | resetDone
  | summaryShown (s : SummaryOut)
  deriving DecidableEq, Repr

/-- Source `handle_text` (lines 127–188): parse, range-check, ensure the
session exists, capacity-check against the cached total, then append
the entry, add to the total and save.  The `Bool` component records
whether `save_user_data()` was called. -/
def handleText (m : SessionMap) (k : Int) (text : String) :
    SessionMap × Bool × Outcome :=
  match parseLine text with
  | none => (m, false, .parseError)
  | some (pct, category) =>
    if 0 < pct ∧ pct ≤ 100 then
      let m1 := if lookupSess m k = none then setSess m k ⟨[], 0⟩ else m
      let plan := (lookupSess m1 k).getD ⟨[], 0⟩
      if 100 < plan.total + (pct : Int) then
        (m1, false, .capacityError (100 - plan.total))
      else
        (setSess m1 k ⟨plan.categories ++ [(category, (pct : Int))],
            plan.total + (pct : Int)⟩,
         true,
         .added category pct (plan.total + (pct : Int) == 100))
    else (m, false, .rangeError)

/-- Source `undo` (lines 199–223): if the session exists and has categories,
pop the last one, decrement the total and save; otherwise "Nothing to
undo" with no mutation and no save. -/
def undoStep (m : SessionMap) (k : Int) : SessionMap × Bool × Outcome :=
  match lookupSess m k with
  | none => (m, false, .nothingToUndo)
  | some p =>
    match p.categories.getLast? with
    | none => (m, false, .nothingToUndo)
    | some (cat, pct) =>
      (setSess m k ⟨p.categories.dropLast, p.total - pct⟩, true,
       .removed cat pct)

/-- Operations reaching the core, tagged with a session key by the
transport adapter. -/
inductive Op
  | start
  | addEntry (text : String)
  | undo
  | reset
  | query
  deriving DecidableEq, Repr

/-- One inbound event: `begin_strategy` installs a fresh empty plan and
saves; `handle_text`, `undo` as above; `cancel` pops the key and saves
unconditionally; `status_cmd` renders `get_summary` without mutating.
Result: (new mapping, whether `save_user_data` ran, outcome). -/
def step (m : SessionMap) (k : Int) : Op → SessionMap × Bool × Outcome
  | .start => (setSess m k ⟨[], 0⟩, true, .started)
  | .addEntry text => handleText m k text
  | .undo => undoStep m k
  | .reset => (popSess m k, true, .resetDone)
  | .query => (m, false, .summaryShown (getSummary m k))

/-- Run a sequence of keyed operations from a mapping. -/
def run (m : SessionMap) : List (Int × Op) → SessionMap
  | [] => m
  | (k, op) :: rest => run (step m k op).1 rest

/-! ## Persistence (`save_user_data` / `load_user_data`)

`save_user_data` serializes `{str(k): v for k, v in user_data.items()}`
to JSON; `load_user_data` parses the JSON and applies
`{int(k): v for k, v in data.items()}`, catching only
`FileNotFoundError` and `json.JSONDecodeError`.  Keys are modelled down
to their decimal-string representation; plan values travel through JSON
structurally unchanged (JSON turns the `(category, pct)` tuples into
arrays, and both are embedded as pairs). -/

/-- Little-endian decimal digits of `n` (empty for `0`), with explicit
fuel for structural recursion. -/
def natToDigitsRevAux : Nat → Nat → List Nat
  | 0, _ => []
  | fuel + 1, n => if n = 0 then [] else n % 10 :: natToDigitsRevAux fuel (n / 10)

/-- Value of a little-endian digit list. -/
def ofDigitsRev : List Nat → Nat
  | [] => 0
  | d :: ds => d + 10 * ofDigitsRev ds

/-- The character for one decimal digit. -/
def digitToChar (d : Nat) : Char :=
  if d = 0 then '0' else if d = 1 then '1' else if d = 2 then '2'
  else if d = 3 then '3' else if d = 4 then '4' else if d = 5 then '5'
  else if d = 6 then '6' else if d = 7 then '7' else if d = 8 then '8'
  else if d = 9 then '9' else '?'

/-- The decimal digit denoted by a character, if any. -/
def charToDigit (c : Char) : Option Nat :=
  if c = '0' then some 0 else if c = '1' then some 1 else if c = '2' then some 2
  else if c = '3' then some 3 else if c = '4' then some 4 else if c = '5' then some 5
  else if c = '6' then some 6 else if c = '7' then some 7 else if c = '8' then some 8
  else if c = '9' then some 9 else none

/-- Python `str(n)` for a natural number: decimal digits,
most-significant first (`"0"` for zero). -/
def strOfNat (n : Nat) : List Char :=
  if n = 0 then ['0'] else ((natToDigitsRevAux n n).reverse.map digitToChar)

/-- Python `str(k)` for an `int` key: an optional minus sign followed by
the decimal digits of the absolute value. -/
def strOfInt (k : Int) : List Char :=
  if k < 0 then '-' :: strOfNat k.natAbs else strOfNat k.natAbs

/-- Parse a nonempty all-digit string, accumulating left to right. -/
def decDigitsAux : Nat → List Char → Option Nat
  | acc, [] => some acc
  | acc, c :: cs =>
    match charToDigit c with
    | some d => decDigitsAux (10 * acc + d) cs
    | none => none

/-- Parse a nonempty string of decimal digits. -/
def decDigits : List Char → Option Nat
  | [] => none
  | c :: cs => decDigitsAux 0 (c :: cs)

/-- Python `int(s)` on a string key: optional sign then decimal digits;
anything else raises `ValueError` (modelled as `none`).  (Python also
tolerates surrounding whitespace and underscores between digits;
neither occurs in keys written by `save_user_data` nor in the inputs
considered here.) -/
def pyIntOfStr (cs : List Char) : Option Int :=
  match cs with
  | [] => none
  | c :: rest =>
    if c = '-' then (decDigits rest).map (fun n => -(n : Int))
    else if c = '+' then (decDigits rest).map (fun n => (n : Int))
    else (decDigits (c :: rest)).map (fun n => (n : Int))

/-- The durable file contents as far as `load_user_data` can tell:
missing (`FileNotFoundError`), not JSON (`json.JSONDecodeError`), or a
decoded JSON object whose keys are strings. -/
inductive StoredFile
  | missing
  | undecodable
  | decoded (items : List (List Char × Plan))
  deriving DecidableEq

/-- The serialized form written by `save_user_data`:
`{str(k): v for k, v in user_data.items()}`. -/
def savedForm (m : SessionMap) : List (List Char × Plan) :=
  m.map (fun e => (strOfInt e.1, e.2))

/-- The dict comprehension `{int(k): v for k, v in data.items()}`:
`int` raising `ValueError` on a key aborts the whole comprehension. -/
def loadItems : List (List Char × Plan) → Except String SessionMap
  | [] => .ok []
  | (s, p) :: rest =>
    match pyIntOfStr s with
    | some k => (loadItems rest).map (fun m => (k, p) :: m)
    | none => .error "ValueError"

/-- Source `load_user_data`: returns `{}` when the file is missing or not
decodable as JSON (the two caught exception types); otherwise converts
every key with `int`, which raises on a non-numeric key. -/
def load_user_data : StoredFile → Except String SessionMap
  | .missing => .ok []
  | .undecodable => .ok []
  | .decoded items => loadItems items

/-! ## Derived definitions used by the properties -/

/-- The "ensure the session exists" step of `handle_text` (lines
155–157). -/
def ensureSess (m : SessionMap) (k : Int) : SessionMap :=
  if lookupSess m k = none then setSess m k ⟨[], 0⟩ else m

/-- Sum of the percents of a plan's entries. -/
def sumPcts (es : List (String × Int)) : Int := (es.map Prod.snd).sum

/-- The spec's Plan invariant. -/
def planInv (p : Plan) : Prop :=
  0 ≤ p.total ∧ p.total ≤ 100 ∧ p.total = sumPcts p.categories

/-- Strengthened invariant carried through the induction: additionally,
every stored percent lies in `[1, 100]`. -/
def planInvS (p : Plan) : Prop :=
  planInv p ∧ ∀ e ∈ p.categories, 0 < e.2 ∧ e.2 ≤ 100

/-- Every plan in the mapping satisfies the strengthened invariant. -/
def mapInv (m : SessionMap) : Prop :=
  ∀ k p, lookupSess m k = some p → planInvS p

/-- Fold a list of texts through `handle_text`, requiring every one to
be a successful add; `none` when any of them fails. -/
def addTexts (m : SessionMap) (k : Int) : List String → Option SessionMap
  | [] => some m
  | t :: ts =>
    match handleText m k t with
    | (m1, _, .added _ _ _) => addTexts m1 k ts
    | _ => none

/-- Apply `undo` `n` times. -/
def undoTimes (m : SessionMap) (k : Int) : Nat → SessionMap
  | 0 => m
  | n + 1 => (undoStep (undoTimes m k n) k).1

/-- The outcomes the spec classifies as operation failures. -/
def isFailure : Outcome → Bool
  | .parseError => true
  | .rangeError => true
  | .capacityError _ => true
  | .nothingToUndo => true
  | _ => false

/-! ## Lemmas about the session mapping -/

theorem lookupSess_setSess_self (m : SessionMap) (k : Int) (p : Plan) :
    lookupSess (setSess m k p) k = some p := by
  induction m with
  | nil => simp [setSess, lookupSess]
  | cons e rest ih =>
    obtain ⟨k', p'⟩ := e
    by_cases h : k' = k
    · simp [setSess, lookupSess, h]
    · simp [setSess, lookupSess, h, ih]

theorem lookupSess_setSess_ne (m : SessionMap) (k k' : Int) (p : Plan)
    (h : k' ≠ k) : lookupSess (setSess m k p) k' = lookupSess m k' := by
  induction m with
  | nil =>
    simp only [setSess, lookupSess]
    rw [if_neg (fun hh => h (Eq.symm hh))]
  | cons e rest ih =>
    obtain ⟨k₀, p₀⟩ := e
    by_cases h0 : k₀ = k
    · subst h0
      simp only [setSess, if_pos rfl, lookupSess]
      rw [if_neg (fun hh => h (Eq.symm hh)), if_neg (fun hh => h (Eq.symm hh))]
    · simp only [setSess, if_neg h0, lookupSess, ih]

theorem lookupSess_popSess_self (m : SessionMap) (k : Int) :
    lookupSess (popSess m k) k = none := by
  induction m with
  | nil => simp [popSess, lookupSess]
  | cons e rest ih =>
    obtain ⟨k', p'⟩ := e
    by_cases h : k' = k
    · simp [popSess, h, ih]
    · simp [popSess, lookupSess, h, ih]

theorem lookupSess_popSess_ne (m : SessionMap) (k k' : Int) (h : k' ≠ k) :
    lookupSess (popSess m k) k' = lookupSess m k' := by
  induction m with
  | nil => simp [popSess]
  | cons e rest ih =>
    obtain ⟨k₀, p₀⟩ := e
    by_cases h0 : k₀ = k
    · subst h0
      have h2 : ¬(k₀ = k') := fun hh => h (Eq.symm hh)
      simp [popSess, lookupSess, ih, h2]
    · simp only [popSess, if_neg h0, lookupSess, ih]

theorem popSess_of_lookup_none (m : SessionMap) (k : Int)
    (h : lookupSess m k = none) : popSess m k = m := by
  induction m with
  | nil => simp [popSess]
  | cons e rest ih =>
    obtain ⟨k', p'⟩ := e
    by_cases h0 : k' = k
    · simp [lookupSess, h0] at h
    · simp only [lookupSess, if_neg h0] at h
      simp [popSess, h0, ih h]

/-! ## Lemmas about decimal key serialization -/

theorem ofDigitsRev_natToDigitsRevAux :
    ∀ fuel n, n ≤ fuel → ofDigitsRev (natToDigitsRevAux fuel n) = n := by
  intro fuel
  induction fuel with
  | zero =>
    intro n hn
    interval_cases n
    simp [natToDigitsRevAux, ofDigitsRev]
  | succ f ih =>
    intro n hn
    by_cases h0 : n = 0
    · simp [natToDigitsRevAux, h0, ofDigitsRev]
    · have hdiv : n / 10 ≤ f := by
        have := Nat.div_lt_self (Nat.pos_of_ne_zero h0) (by norm_num : 1 < 10)
        omega
      simp only [natToDigitsRevAux, if_neg h0, ofDigitsRev, ih _ hdiv]
      omega

theorem natToDigitsRevAux_lt :
    ∀ fuel n d, d ∈ natToDigitsRevAux fuel n → d < 10 := by
  intro fuel
  induction fuel with
  | zero => intro n d hd; simp [natToDigitsRevAux] at hd
  | succ f ih =>
    intro n d hd
    by_cases h0 : n = 0
    · simp [natToDigitsRevAux, h0] at hd
    · simp only [natToDigitsRevAux, if_neg h0, List.mem_cons] at hd
      rcases hd with h | h
      · omega
      · exact ih _ _ h

theorem charToDigit_digitToChar : ∀ d, d < 10 → charToDigit (digitToChar d) = some d := by
  decide

theorem decDigitsAux_map (ds : List Nat) :
    ∀ acc, (∀ d ∈ ds, d < 10) →
      decDigitsAux acc (ds.map digitToChar) =
        some (ds.foldl (fun a d => 10 * a + d) acc) := by
  induction ds with
  | nil => intro acc _; simp [decDigitsAux]
  | cons d ds ih =>
    intro acc hds
    have hd : d < 10 := hds d (List.mem_cons_self d ds)
    simp only [List.map_cons, decDigitsAux, charToDigit_digitToChar d hd,
      List.foldl_cons]
    exact ih _ (fun x hx => hds x (List.mem_cons_of_mem d hx))

theorem foldl_reverse_digits (ds : List Nat) :
    ∀ acc, (ds.reverse).foldl (fun a d => 10 * a + d) acc =
      acc * 10 ^ ds.length + ofDigitsRev ds := by
  induction ds with
  | nil => intro acc; simp [ofDigitsRev]
  | cons d ds ih =>
    intro acc
    simp only [List.reverse_cons, List.foldl_append, List.foldl_cons,
      List.foldl_nil, ih, ofDigitsRev, List.length_cons]
    ring

theorem decDigits_cons (c : Char) (cs : List Char) :
    decDigits (c :: cs) = decDigitsAux 0 (c :: cs) := rfl

theorem natToDigitsRevAux_ne_nil (f n : Nat) (h0 : n ≠ 0) (hf : f ≠ 0) :
    natToDigitsRevAux f n ≠ [] := by
  obtain ⟨f', rfl⟩ : ∃ f', f = f' + 1 := ⟨f - 1, by omega⟩
  simp [natToDigitsRevAux, h0]

theorem decDigits_strOfNat (n : Nat) : decDigits (strOfNat n) = some n := by
  by_cases h0 : n = 0
  · subst h0; decide
  · have hne : natToDigitsRevAux n n ≠ [] := natToDigitsRevAux_ne_nil n n h0 h0
    have hall : ∀ d ∈ (natToDigitsRevAux n n).reverse, d < 10 := by
      intro d hd
      exact natToDigitsRevAux_lt n n d (List.mem_reverse.mp hd)
    have hshape :
        strOfNat n = ((natToDigitsRevAux n n).reverse).map digitToChar := by
      simp [strOfNat, h0]
    obtain ⟨d, ds, hds⟩ :
        ∃ d ds, (natToDigitsRevAux n n).reverse = d :: ds := by
      cases hrev : (natToDigitsRevAux n n).reverse with
      | nil => exact absurd (by simpa using congrArg List.reverse hrev) hne
      | cons d ds => exact ⟨d, ds, rfl⟩
    rw [hshape, hds, List.map_cons, decDigits_cons, ← List.map_cons, ← hds,
      decDigitsAux_map _ _ hall, foldl_reverse_digits]
    simp [ofDigitsRev_natToDigitsRevAux n n le_rfl]

theorem strOfNat_mem_digit (n : Nat) (c : Char) (hc : c ∈ strOfNat n) :
    (charToDigit c).isSome := by
  by_cases h0 : n = 0
  · subst h0
    simp [strOfNat] at hc
    subst hc; decide
  · simp only [strOfNat, if_neg h0, List.mem_map, List.mem_reverse] at hc
    obtain ⟨d, hd, rfl⟩ := hc
    have := natToDigitsRevAux_lt n n d hd
    rw [charToDigit_digitToChar d this]
    rfl

theorem strOfNat_ne_nil (n : Nat) : strOfNat n ≠ [] := by
  by_cases h0 : n = 0
  · subst h0; decide
  · simp only [strOfNat, if_neg h0, ne_eq, List.map_eq_nil_iff,
      List.reverse_eq_nil_iff]
    exact natToDigitsRevAux_ne_nil n n h0 h0

/-- Round-trip `int(str(k)) = k` for the keys written by save. -/
theorem pyIntOfStr_strOfInt (k : Int) : pyIntOfStr (strOfInt k) = some k := by
  by_cases hk : k < 0
  · have h1 : ((-k).natAbs : Int) = -k := Int.natAbs_of_nonneg (by omega)
    rw [Int.natAbs_neg] at h1
    rw [strOfInt, if_pos hk]
    simp [pyIntOfStr, decDigits_strOfNat, h1]
  · simp only [strOfInt, if_neg hk]
    cases hs : strOfNat k.natAbs with
    | nil => exact absurd hs (strOfNat_ne_nil _)
    | cons c cs =>
      have hcn : (charToDigit c).isSome :=
        strOfNat_mem_digit _ c (hs ▸ List.mem_cons_self c cs)
      have hc1 : ¬(c = '-') := by rintro rfl; revert hcn; decide
      have hc2 : ¬(c = '+') := by rintro rfl; revert hcn; decide
      rw [pyIntOfStr, if_neg hc1, if_neg hc2, ← hs, decDigits_strOfNat]
      simp [Int.natAbs_of_nonneg (show (0 : Int) ≤ k by omega)]

/-! ## Plan invariant and its preservation -/

theorem planInvS_empty : planInvS ⟨[], 0⟩ := by
  refine ⟨⟨le_refl 0, by norm_num, ?_⟩, ?_⟩
  · simp [sumPcts]
  · intro e he; simp at he

theorem sumPcts_append (es : List (String × Int)) (e : String × Int) :
    sumPcts (es ++ [e]) = sumPcts es + e.2 := by
  simp [sumPcts]

theorem sumPcts_nonneg (es : List (String × Int))
    (h : ∀ e ∈ es, 0 < e.2) : 0 ≤ sumPcts es := by
  refine List.sum_nonneg ?_
  intro x hx
  simp only [List.mem_map] at hx
  obtain ⟨e, he, rfl⟩ := hx
  exact le_of_lt (h e he)

theorem mapInv_nil : mapInv [] := by
  intro k p h
  simp [lookupSess] at h

theorem mapInv_setSess (m : SessionMap) (k : Int) (p : Plan)
    (hm : mapInv m) (hp : planInvS p) : mapInv (setSess m k p) := by
  intro k' p' h
  by_cases hk : k' = k
  · subst hk
    rw [lookupSess_setSess_self] at h
    cases h
    exact hp
  · rw [lookupSess_setSess_ne m k k' p hk] at h
    exact hm k' p' h

theorem mapInv_popSess (m : SessionMap) (k : Int) (hm : mapInv m) :
    mapInv (popSess m k) := by
  intro k' p' h
  by_cases hk : k' = k
  · subst hk
    rw [lookupSess_popSess_self] at h
    cases h
  · rw [lookupSess_popSess_ne m k k' hk] at h
    exact hm k' p' h

theorem ensureSess_lookup_isSome (m : SessionMap) (k : Int) :
    (lookupSess (ensureSess m k) k).isSome := by
  unfold ensureSess
  by_cases h : lookupSess m k = none
  · rw [if_pos h, lookupSess_setSess_self]; rfl
  · rw [if_neg h]
    cases hl : lookupSess m k with
    | none => exact absurd hl h
    | some p => rfl

theorem mapInv_ensureSess (m : SessionMap) (k : Int) (hm : mapInv m) :
    mapInv (ensureSess m k) := by
  unfold ensureSess
  by_cases h : lookupSess m k = none
  · rw [if_pos h]
    exact mapInv_setSess m k _ hm planInvS_empty
  · rw [if_neg h]
    exact hm

theorem ensureSess_of_isSome (m : SessionMap) (k : Int)
    (h : lookupSess m k ≠ none) : ensureSess m k = m := by
  unfold ensureSess
  rw [if_neg h]

theorem planInvS_getD (m : SessionMap) (k : Int) (hm : mapInv m) :
    planInvS ((lookupSess m k).getD ⟨[], 0⟩) := by
  cases hl : lookupSess m k with
  | none => exact planInvS_empty
  | some p => exact hm k p hl

theorem handleText_eq (m : SessionMap) (k : Int) (text : String) :
    handleText m k text =
      match parseLine text with
      | none => (m, false, .parseError)
      | some (pct, category) =>
        if 0 < pct ∧ pct ≤ 100 then
          let m1 := ensureSess m k
          let plan := (lookupSess m1 k).getD ⟨[], 0⟩
          if 100 < plan.total + (pct : Int) then
            (m1, false, .capacityError (100 - plan.total))
          else
            (setSess m1 k ⟨plan.categories ++ [(category, (pct : Int))],
                plan.total + (pct : Int)⟩,
             true,
             .added category pct (plan.total + (pct : Int) == 100))
        else (m, false, .rangeError) := rfl

theorem undoStep_eq_none (m : SessionMap) (k : Int)
    (hl : lookupSess m k = none) :
    undoStep m k = (m, false, .nothingToUndo) := by
  unfold undoStep
  rw [hl]

theorem undoStep_eq_empty (m : SessionMap) (k : Int) (p : Plan)
    (hl : lookupSess m k = some p) (he : p.categories.getLast? = none) :
    undoStep m k = (m, false, .nothingToUndo) := by
  unfold undoStep
  rw [hl]
  dsimp only
  rw [he]

theorem undoStep_eq_pop (m : SessionMap) (k : Int) (p : Plan) (c : String)
    (q : Int) (hl : lookupSess m k = some p)
    (he : p.categories.getLast? = some (c, q)) :
    undoStep m k =
      (setSess m k ⟨p.categories.dropLast, p.total - q⟩, true,
        .removed c q) := by
  unfold undoStep
  rw [hl]
  dsimp only
  rw [he]

/-- Invariant preservation for a single inbound event. -/
theorem mapInv_step (m : SessionMap) (k : Int) (op : Op) (hm : mapInv m) :
    mapInv (step m k op).1 := by
  cases op with
  | start => exact mapInv_setSess m k _ hm planInvS_empty
  | reset => exact mapInv_popSess m k hm
  | query => exact hm
  | undo =>
    show mapInv (undoStep m k).1
    cases hl : lookupSess m k with
    | none =>
      rw [undoStep_eq_none m k hl]
      exact hm
    | some p =>
      cases hlast : p.categories.getLast? with
      | none =>
        rw [undoStep_eq_empty m k p hl hlast]
        exact hm
      | some e =>
        obtain ⟨c, q⟩ := e
        rw [undoStep_eq_pop m k p c q hl hlast]
        have hp : planInvS p := hm k p hl
        have hne : p.categories ≠ [] := by
          intro hnil
          rw [hnil] at hlast
          simp at hlast
        have hsplit : p.categories.dropLast ++ [(c, q)] = p.categories := by
          have h1 := List.dropLast_append_getLast hne
          have h2 : p.categories.getLast hne = (c, q) :=
            Option.some.inj
              ((List.getLast?_eq_getLast p.categories hne).symm.trans hlast)
          rw [h2] at h1
          exact h1
        have hqmem : (c, q) ∈ p.categories := by
          rw [← hsplit]
          exact List.mem_append_right _ (List.mem_singleton.mpr rfl)
        have hq : 0 < q ∧ q ≤ 100 := hp.2 _ hqmem
        refine mapInv_setSess m k _ hm ⟨⟨?_, ?_, ?_⟩, ?_⟩
        · -- 0 ≤ total - q : total = sum of all = sum of dropLast + q
          have hsum : p.total = sumPcts p.categories.dropLast + q := by
            have h3 : sumPcts p.categories = sumPcts p.categories.dropLast + q := by
              conv_lhs => rw [← hsplit]
              rw [sumPcts_append]
            rw [hp.1.2.2, h3]
          have hpos : 0 ≤ sumPcts p.categories.dropLast := by
            refine sumPcts_nonneg _ ?_
            intro e he
            exact (hp.2 e (List.dropLast_subset _ he)).1
          dsimp only
          omega
        · have h100 := hp.1.2.1
          have hq1 := hq.1
          dsimp only
          omega
        · dsimp only
          have hsum : p.total = sumPcts p.categories.dropLast + q := by
            have h3 : sumPcts p.categories = sumPcts p.categories.dropLast + q := by
              conv_lhs => rw [← hsplit]
              rw [sumPcts_append]
            rw [hp.1.2.2, h3]
          omega
        · intro e he
          exact hp.2 e (List.dropLast_subset _ he)
  | addEntry text =>
    show mapInv (handleText m k text).1
    rw [handleText_eq]
    cases hp : parseLine text with
    | none => exact hm
    | some r =>
      obtain ⟨pct, category⟩ := r
      dsimp only
      by_cases hr : 0 < pct ∧ pct ≤ 100
      · rw [if_pos hr]
        have hm1 : mapInv (ensureSess m k) := mapInv_ensureSess m k hm
        have hplan : planInvS ((lookupSess (ensureSess m k) k).getD ⟨[], 0⟩) :=
          planInvS_getD _ k hm1
        set plan := (lookupSess (ensureSess m k) k).getD ⟨[], 0⟩ with hplandef
        by_cases hc : 100 < plan.total + (pct : Int)
        · rw [if_pos hc]
          exact hm1
        · rw [if_neg hc]
          refine mapInv_setSess _ k _ hm1 ⟨⟨?_, ?_, ?_⟩, ?_⟩
          · dsimp only
            have h0 := hplan.1.1
            omega
          · dsimp only
            omega
          · dsimp only
            rw [sumPcts_append]
            dsimp only
            have hsum := hplan.1.2.2
            omega
          · intro e he
            dsimp only at he
            rcases List.mem_append.mp he with h | h
            · exact hplan.2 e h
            · rcases List.mem_singleton.mp h with rfl
              dsimp only
              omega
      · rw [if_neg hr]
        exact hm

/-- Invariant preservation along a run. -/
theorem mapInv_run (m : SessionMap) (ops : List (Int × Op)) (hm : mapInv m) :
    mapInv (run m ops) := by
  induction ops generalizing m with
  | nil => exact hm
  | cons e rest ih =>
    obtain ⟨k, op⟩ := e
    exact ih _ (mapInv_step m k op hm)

/-! ## Characterization of a successful add -/

/-- When the session already has plan `P` and `handle_text` reports a
successful add, the new mapping stores exactly `P` with the entry
appended and the total incremented. -/
theorem handleText_added (m : SessionMap) (k : Int) (text : String)
    (P : Plan) (m' : SessionMap) (sv : Bool) (c : String) (pct : Nat)
    (cmp : Bool) (hP : lookupSess m k = some P)
    (h : handleText m k text = (m', sv, .added c pct cmp)) :
    m' = setSess m k
        ⟨P.categories ++ [(c, (pct : Int))], P.total + (pct : Int)⟩ := by
  rw [handleText_eq] at h
  cases hp : parseLine text with
  | none =>
    rw [hp] at h
    simp at h
  | some r =>
    obtain ⟨pct0, category0⟩ := r
    rw [hp] at h
    dsimp only at h
    by_cases hr : 0 < pct0 ∧ pct0 ≤ 100
    · rw [if_pos hr] at h
      have hens : ensureSess m k = m :=
        ensureSess_of_isSome m k (by rw [hP]; exact fun hh => Option.noConfusion hh)
      rw [hens, hP] at h
      dsimp only [Option.getD] at h
      by_cases hc : 100 < P.total + (pct0 : Int)
      · rw [if_pos hc] at h
        simp at h
      · rw [if_neg hc] at h
        injection h with h1 h2
        injection h2 with h3 h4
        injection h4 with h5 h6 h7
        subst h5
        subst h6
        exact h1.symm
    · rw [if_neg hr] at h
      simp at h

/-! ## Claims -/

/-- C1: every Plan reachable from the fresh empty state by any sequence
of start, addEntry, undo and reset operations (failed attempts included,
which leave plans unchanged) has an integer total with
`0 ≤ total ≤ 100`, equal to the sum of the percents of its entries. -/
theorem C1_reachable_plan_invariant (ops : List (Int × Op)) (k : Int)
    (p : Plan) (h : lookupSess (run [] ops) k = some p) :
    0 ≤ p.total ∧ p.total ≤ 100 ∧ p.total = sumPcts p.categories :=
  ((mapInv_run [] ops mapInv_nil) k p h).1

theorem C1_witness :
    0 ≤ (⟨[("Needs", 50)], 50⟩ : Plan).total ∧
      (⟨[("Needs", 50)], 50⟩ : Plan).total ≤ 100 ∧
      (⟨[("Needs", 50)], 50⟩ : Plan).total =
        sumPcts (⟨[("Needs", 50)], 50⟩ : Plan).categories :=
  C1_reachable_plan_invariant [(1, .start), (1, .addEntry "50% Needs")] 1
    ⟨[("Needs", 50)], 50⟩ (by decide)

/-- C2: for a stored plan with total `t < 100` and a parsed percent
`p ∈ [1, 100]`: if `t + p > 100` the add fails with capacity error
reporting `100 - t` and the mapping (hence the plan) is unchanged with
no save; if `p = 100 - t` the add succeeds, the resulting plan has
total 100, and the isComplete flag is set. -/
theorem C2_capacity_boundary (m : SessionMap) (k : Int) (text : String)
    (plan : Plan) (pct : Nat) (c : String)
    (hP : lookupSess m k = some plan) (ht : plan.total < 100)
    (hp : parseLine text = some (pct, c)) (h1 : 1 ≤ pct) (h2 : pct ≤ 100) :
    (100 < plan.total + (pct : Int) →
      handleText m k text = (m, false, .capacityError (100 - plan.total))) ∧
    ((pct : Int) = 100 - plan.total →
      handleText m k text =
        (setSess m k ⟨plan.categories ++ [(c, (pct : Int))], 100⟩, true,
          .added c pct true) ∧
      lookupSess (handleText m k text).1 k =
        some ⟨plan.categories ++ [(c, (pct : Int))], 100⟩) := by
  have h0 : 0 < pct := h1
  have hens : ensureSess m k = m :=
    ensureSess_of_isSome m k (by rw [hP]; exact fun hh => Option.noConfusion hh)
  constructor
  · intro hover
    rw [handleText_eq, hp]
    dsimp only
    rw [if_pos ⟨h0, h2⟩, hens, hP]
    dsimp only [Option.getD]
    rw [if_pos hover]
  · intro hexact
    have heq : plan.total + (pct : Int) = 100 := by omega
    have hmain : handleText m k text =
        (setSess m k ⟨plan.categories ++ [(c, (pct : Int))], 100⟩, true,
          .added c pct true) := by
      rw [handleText_eq, hp]
      dsimp only
      rw [if_pos ⟨h0, h2⟩, hens, hP]
      dsimp only [Option.getD]
      rw [if_neg (by omega), heq]
      simp
    refine ⟨hmain, ?_⟩
    rw [hmain]
    dsimp only
    rw [lookupSess_setSess_self]

theorem C2_witness :
    handleText [(7, ⟨[("Needs", 90)], 90⟩)] 7 "20% Fun" =
        ([(7, ⟨[("Needs", 90)], 90⟩)], false, .capacityError 10) ∧
      handleText [(7, ⟨[("Needs", 90)], 90⟩)] 7 "10% Fun" =
        (setSess [(7, ⟨[("Needs", 90)], 90⟩)] 7
            ⟨[("Needs", 90), ("Fun", 10)], 100⟩, true, .added "Fun" 10 true) :=
  ⟨(C2_capacity_boundary [(7, ⟨[("Needs", 90)], 90⟩)] 7 "20% Fun"
      ⟨[("Needs", 90)], 90⟩ 20 "Fun" (by decide) (by decide) (by decide)
      (by decide) (by decide)).1 (by decide),
   ((C2_capacity_boundary [(7, ⟨[("Needs", 90)], 90⟩)] 7 "10% Fun"
      ⟨[("Needs", 90)], 90⟩ 10 "Fun" (by decide) (by decide) (by decide)
      (by decide) (by decide)).2 (by decide)).1⟩

/-- C3: serializing the mapping with string keys and loading it back
(converting keys with `int`) returns a mapping equal to the original:
same sessions, same entries in order, same totals. -/
theorem C3_save_load_roundtrip (m : SessionMap) :
    load_user_data (.decoded (savedForm m)) = .ok m := by
  show loadItems (savedForm m) = .ok m
  induction m with
  | nil => rfl
  | cons e rest ih =>
    obtain ⟨k, p⟩ := e
    show loadItems ((strOfInt k, p) :: savedForm rest) = _
    unfold loadItems
    rw [pyIntOfStr_strOfInt]
    dsimp only
    rw [ih]
    rfl

/-- C4 counterexample: decodable stored content with a non-numeric
session key makes `load_user_data` raise `ValueError` (uncaught), so
load does NOT return a mapping dropping the malformed record. -/
theorem C4_counterexample :
    load_user_data (.decoded [(['a', 'b', 'c'], ⟨[], 0⟩)]) =
      .error "ValueError" := rfl

/-- C4 (amended): load returns the empty mapping when the file is
missing or not decodable as JSON; but on decodable content containing a
record whose session key `int` cannot parse, load raises (the record is
not dropped). -/
theorem C4_load_malformed (items : List (List Char × Plan)) :
    load_user_data .missing = .ok [] ∧
    load_user_data .undecodable = .ok [] ∧
    (∀ s p, (s, p) ∈ items → pyIntOfStr s = none →
      ∃ e, load_user_data (.decoded items) = .error e) := by
  refine ⟨rfl, rfl, ?_⟩
  intro s p hmem hbad
  show ∃ e, loadItems items = .error e
  induction items with
  | nil => simp at hmem
  | cons hd rest ih =>
    obtain ⟨s0, p0⟩ := hd
    rcases List.mem_cons.mp hmem with heq | hmem'
    · injection heq with hs0 hp0
      subst hs0
      refine ⟨"ValueError", ?_⟩
      unfold loadItems
      rw [hbad]
    · cases h0 : pyIntOfStr s0 with
      | none =>
        refine ⟨"ValueError", ?_⟩
        unfold loadItems
        rw [h0]
      | some key =>
        obtain ⟨e, he⟩ := ih hmem'
        refine ⟨e, ?_⟩
        unfold loadItems
        rw [h0]
        dsimp only
        rw [he]
        rfl

theorem C4_witness :
    ∃ e,
      load_user_data
          (.decoded [(['1', '2'], (⟨[], 0⟩ : Plan)), (['x'], ⟨[], 0⟩)]) =
        .error e :=
  (C4_load_malformed [(['1', '2'], ⟨[], 0⟩), (['x'], ⟨[], 0⟩)]).2.2
    ['x'] ⟨[], 0⟩ (by decide) (by decide)

/-- C5 counterexample: the parsed label "fun money" is stored as
"Fun money" (Python `str.capitalize`), not the title-cased "Fun Money"
the claim states. -/
theorem C5_counterexample :
    parseLine "50% fun money" = some (50, "Fun money") ∧
      ("Fun money" : String) ≠ "Fun Money" := by
  constructor
  · decide
  · decide

/-- C5 (amended): for every successfully parsed input, the stored
category label is the captured free-text label trimmed of surrounding
whitespace and capitalized (first character uppercased, remaining
characters lowercased) — not title-cased. -/
theorem C5_stored_label (text : String) (p : Nat) (c : String)
    (h : parseLine text = some (p, c)) :
    ∃ g2, reSearch (pyStrip text.data) = some (p, g2) ∧
      c = String.mk (capitalizePy (pyStrip g2)) := by
  unfold parseLine at h
  cases hs : reSearch (pyStrip text.data) with
  | none =>
    rw [hs] at h
    simp at h
  | some r =>
    obtain ⟨p0, g2⟩ := r
    rw [hs] at h
    dsimp only [Option.map] at h
    injection h with h1
    injection h1 with h2 h3
    subst h2
    exact ⟨g2, rfl, h3.symm⟩

theorem C5_witness :
    ∃ g2, reSearch (pyStrip ("50% fun money" : String).data) = some (50, g2) ∧
      ("Fun money" : String) = String.mk (capitalizePy (pyStrip g2)) :=
  C5_stored_label "50% fun money" 50 "Fun money" (by decide)

/-- C6: undo is strict LIFO: one undo on a plan whose entries end with
`(c, q)` removes exactly that entry and decrements the total by `q`;
and `n` undos revert any `n` successful adds, restoring the original
plan. -/
theorem C6_lifo :
    (∀ (m : SessionMap) (k : Int) (P : Plan) (ts : List String)
        (m' : SessionMap), lookupSess m k = some P →
        addTexts m k ts = some m' →
        lookupSess (undoTimes m' k ts.length) k = some P) ∧
    (∀ (m : SessionMap) (k : Int) (P : Plan) (cs : List (String × Int))
        (c : String) (q : Int), lookupSess m k = some P →
        P.categories = cs ++ [(c, q)] →
        undoStep m k =
          (setSess m k ⟨cs, P.total - q⟩, true, .removed c q)) := by
  constructor
  · intro m k P ts
    induction ts generalizing m P with
    | nil =>
      intro m' hP hadd
      have hmm : m = m' := Option.some.inj hadd
      subst hmm
      exact hP
    | cons t ts ih =>
      intro m' hP hadd
      unfold addTexts at hadd
      cases ho : handleText m k t with
      | mk m1 r1 =>
        obtain ⟨sv, out⟩ := r1
        rw [ho] at hadd
        cases out with
        | added c pct cmp =>
          dsimp only at hadd
          have hm1 := handleText_added m k t P m1 sv c pct cmp hP ho
          subst hm1
          have hP1 :
              lookupSess
                  (setSess m k
                    ⟨P.categories ++ [(c, (pct : Int))], P.total + (pct : Int)⟩)
                  k =
                some ⟨P.categories ++ [(c, (pct : Int))], P.total + (pct : Int)⟩ :=
            lookupSess_setSess_self m k _
          have ihres := ih _ _ m' hP1 hadd
          show lookupSess (undoStep (undoTimes m' k ts.length) k).1 k = some P
          have hlast :
              (⟨P.categories ++ [(c, (pct : Int))],
                  P.total + (pct : Int)⟩ : Plan).categories.getLast? =
                some (c, (pct : Int)) := List.getLast?_concat _
          rw [undoStep_eq_pop _ k _ c (pct : Int) ihres hlast]
          dsimp only
          rw [lookupSess_setSess_self]
          have htot :
              P.total + (pct : Int) - (pct : Int) = P.total := by ring
          rw [List.dropLast_concat, htot]
        | started => simp at hadd
        | parseError => simp at hadd
        | rangeError => simp at hadd
        | capacityError r => simp at hadd
        | removed c q => simp at hadd
        | nothingToUndo => simp at hadd
        | resetDone => simp at hadd
        | summaryShown s => simp at hadd
  · intro m k P cs c q hP hcats
    have hlast : P.categories.getLast? = some (c, q) := by
      rw [hcats]
      exact List.getLast?_concat _
    rw [undoStep_eq_pop m k P c q hP hlast, hcats, List.dropLast_concat]

theorem C6_witness :
    lookupSess
        (undoTimes
          [(3, ⟨[("Base", 20), ("Fun", 30), ("Savings", 50)], 100⟩)] 3 2) 3 =
      some ⟨[("Base", 20)], 20⟩ :=
  C6_lifo.1 [(3, ⟨[("Base", 20)], 20⟩)] 3 ⟨[("Base", 20)], 20⟩
    ["30% Fun", "50% Savings"]
    [(3, ⟨[("Base", 20), ("Fun", 30), ("Savings", 50)], 100⟩)]
    (by decide) (by decide)

/-- C7: every failed operation (parse, range, capacity,
nothing-to-undo) leaves the in-memory mapping exactly as it was and
performs no save. -/
theorem C7_failure_preserves_state (m : SessionMap) (k : Int) (op : Op)
    (h : isFailure (step m k op).2.2 = true) :
    (step m k op).1 = m ∧ (step m k op).2.1 = false := by
  cases op with
  | start => simp [step, isFailure] at h
  | reset => simp [step, isFailure] at h
  | query => simp [step, isFailure] at h
  | undo =>
    change isFailure (undoStep m k).2.2 = true at h
    change (undoStep m k).1 = m ∧ (undoStep m k).2.1 = false
    cases hl : lookupSess m k with
    | none =>
      rw [undoStep_eq_none m k hl]
      exact ⟨rfl, rfl⟩
    | some p =>
      cases hlast : p.categories.getLast? with
      | none =>
        rw [undoStep_eq_empty m k p hl hlast]
        exact ⟨rfl, rfl⟩
      | some e =>
        obtain ⟨c, q⟩ := e
        rw [undoStep_eq_pop m k p c q hl hlast] at h
        simp [isFailure] at h
  | addEntry text =>
    change isFailure (handleText m k text).2.2 = true at h
    change (handleText m k text).1 = m ∧ (handleText m k text).2.1 = false
    rw [handleText_eq] at h ⊢
    cases hp : parseLine text with
    | none => exact ⟨rfl, rfl⟩
    | some r =>
      obtain ⟨pct, category⟩ := r
      rw [hp] at h
      dsimp only at h ⊢
      by_cases hr : 0 < pct ∧ pct ≤ 100
      · rw [if_pos hr] at h ⊢
        by_cases hc :
            100 < ((lookupSess (ensureSess m k) k).getD ⟨[], 0⟩).total +
              (pct : Int)
        · rw [if_pos hc] at h ⊢
          by_cases hl : lookupSess m k = none
          · exfalso
            have hset : ensureSess m k = setSess m k ⟨[], 0⟩ := by
              rw [ensureSess, if_pos hl]
            rw [hset, lookupSess_setSess_self] at hc
            dsimp only [Option.getD] at hc
            have hpc : (pct : Int) ≤ 100 := by exact_mod_cast hr.2
            omega
          · exact ⟨ensureSess_of_isSome m k hl, rfl⟩
        · rw [if_neg hc] at h
          simp [isFailure] at h
      · rw [if_neg hr] at h ⊢
        exact ⟨rfl, rfl⟩

theorem C7_witness :
    (step [] 5 (.addEntry "hello")).1 = [] ∧
      (step [] 5 (.addEntry "hello")).2.1 = false :=
  C7_failure_preserves_state [] 5 (.addEntry "hello") (by decide)

/-- C8: reset never fails, always removes the session's mapping entry,
is a no-op on an absent session, and query mutates nothing (and saves
nothing). -/
theorem C8_reset_query (m : SessionMap) (k : Int) :
    step m k .reset = (popSess m k, true, .resetDone) ∧
    lookupSess (popSess m k) k = none ∧
    (lookupSess m k = none → popSess m k = m) ∧
    step m k .query = (m, false, .summaryShown (getSummary m k)) :=
  ⟨rfl, lookupSess_popSess_self m k, popSess_of_lookup_none m k, rfl⟩

theorem C8_witness :
    popSess [(5, (⟨[("A", 10)], 10⟩ : Plan))] 7 =
        [(5, ⟨[("A", 10)], 10⟩)] ∧
      lookupSess (popSess [(5, (⟨[("A", 10)], 10⟩ : Plan))] 5) 5 = none :=
  ⟨(C8_reset_query [(5, ⟨[("A", 10)], 10⟩)] 7).2.2.1 (by decide),
   (C8_reset_query [(5, ⟨[("A", 10)], 10⟩)] 5).2.1⟩

/-- C9: undo for a session key absent from the mapping reports
nothing-to-undo, creates no plan, leaves the mapping unchanged and
performs no save — the same outcome as undo on an existing plan with no
entries. -/
theorem C9_undo_absent_key (m : SessionMap) (k : Int) :
    (lookupSess m k = none →
      undoStep m k = (m, false, .nothingToUndo)) ∧
    (∀ p, lookupSess m k = some p → p.categories = [] →
      undoStep m k = (m, false, .nothingToUndo)) := by
  constructor
  · exact undoStep_eq_none m k
  · intro p hp hcats
    exact undoStep_eq_empty m k p hp (by rw [hcats]; rfl)

theorem C9_witness :
    undoStep [(2, (⟨[], 0⟩ : Plan))] 9 =
        ([(2, ⟨[], 0⟩)], false, .nothingToUndo) ∧
      undoStep [(2, (⟨[], 0⟩ : Plan))] 2 =
        ([(2, ⟨[], 0⟩)], false, .nothingToUndo) :=
  ⟨(C9_undo_absent_key [(2, ⟨[], 0⟩)] 9).1 (by decide),
   (C9_undo_absent_key [(2, ⟨[], 0⟩)] 2).2 ⟨[], 0⟩ (by decide) rfl⟩

/-- C10: the unanchored search accepts arbitrary text before the
digits ("abc 50% Needs" parses as 50/"Needs"), and the optional
connector lacking a word boundary eats the start of a category word
("50 total" parses as 50 with category "Tal"). -/
theorem C10_parser_quirks :
    parseLine "abc 50% Needs" = some (50, "Needs") ∧
      parseLine "50 total" = some (50, "Tal") := by
  constructor
  · decide
  · decide

end Bot

section SanityChecks
open Bot
example : parseLine "50% Needs" = some (50, "Needs") := by decide
example : parseLine "abc 50% Needs" = some (50, "Needs") := by decide
example : parseLine "50 total" = some (50, "Tal") := by decide
example : parseLine "50% fun money" = some (50, "Fun money") := by decide
example : parseLine "hello" = none := by decide
example : parseLine "50" = some (5, "0") := by decide
example : parseLine "10 for fun" = some (10, "Fun") := by decide
example : parseLine "50%" = some (50, "%") := by decide
example : parseLine "  30 % To savings  " = some (30, "Savings") := by decide
example : parseLine "7%%x" = some (7, "%x") := by decide
example : parseLine "12%to  On y" = some (12, "On y") := by decide
example :
    run [] [(1, .start), (1, .addEntry "50% Needs"), (1, .addEntry "30 for fun")] =
      [(1, ⟨[("Needs", 50), ("Fun", 30)], 80⟩)] := by decide
example :
    step [(1, ⟨[("Needs", 50)], 50⟩)] 1 (.addEntry "60% X") =
      ([(1, ⟨[("Needs", 50)], 50⟩)], false, .capacityError 50) := by decide
example :
    step [(1, ⟨[("Needs", 50)], 50⟩)] 1 .undo =
      ([(1, ⟨[], 0⟩)], true, .removed "Needs" 50) := by decide
example : strOfInt 105 = ['1', '0', '5'] := by decide
example : strOfInt (-34) = ['-', '3', '4'] := by decide
example : strOfInt 0 = ['0'] := by decide
example : pyIntOfStr ['1', '0', '5'] = some 105 := by decide
example : pyIntOfStr ['-', '3', '4'] = some (-34) := by decide
example : pyIntOfStr ['a', 'b', 'c'] = none := by decide
example : pyIntOfStr ['-'] = none := by decide
example : pyIntOfStr [] = none := by decide
example :
    load_user_data (.decoded (savedForm [(12, ⟨[("Needs", 50)], 50⟩), (-3, ⟨[], 0⟩)])) =
      .ok [(12, ⟨[("Needs", 50)], 50⟩), (-3, ⟨[], 0⟩)] := by rfl
example :
    load_user_data (.decoded [(['a', 'b', 'c'], ⟨[], 0⟩)]) = .error "ValueError" := by
  rfl
end SanityChecks
